import Mathlib

/-!
Verification development for the PACP coder application
(`streamlit_app_pacp_coder.py`).  The Python source is embedded shallowly:

* pandas data frames become lists of records with `Option`-valued cells
  (`none` models a missing value / NaN);
* Python string operations (`str.strip`, `str.upper`, slicing, `str.zfill`,
  the regex `\d+`) are re-implemented over `String.data : List Char`, which
  makes every definition executable by kernel reduction;
* Python dicts used as lookups become association lists in which a second
  registration of a key overwrites the stored value in place
  (CPython dicts keep insertion order and overwrite on reassignment);
* Python sets used only for membership (`used_indices`, `seen_normal`,
  `seen_cont`, the unwanted-code set) become lists queried by membership.

All claims are settled against these definitions.
-/

/-! ### Python string primitives -/

/-- The whitespace characters stripped by Python's `str.strip()`. -/
def isWsChar (c : Char) : Bool :=
  c == ' ' || c == '\t' || c == '\n' || c == '\r' || c == '\x0b' || c == '\x0c'

/-- Python `s.strip()`: drop whitespace from both ends. -/
def pyStrip (s : String) : String :=
  ⟨((s.data.dropWhile isWsChar).reverse.dropWhile isWsChar).reverse⟩

/-- Python `s.upper()` (the tokens handled here are ASCII). -/
def pyUpper (s : String) : String :=
  ⟨s.data.map Char.toUpper⟩

/-- Python `s.startswith(c)` for a single-character prefix. -/
def headIs (s : String) (c : Char) : Bool :=
  match s.data with
  | [] => false
  | a :: _ => a == c

/-- Python `s[1:]`: drop the first character. -/
def strTail (s : String) : String :=
  ⟨s.data.drop 1⟩

/-! ### `to_4digit_score` (source lines 14-25)

The input is the already-stringified cell value; `none` models a NaN cell
(`pd.isna(val)`). -/

/-- The first maximal digit run of a character list; `[]` when there is no
digit.  This is what `re.search(r"\d+", s)` yields on `s`. -/
def firstDigitRun : List Char → List Char
  | [] => []
  | c :: cs => if c.isDigit then c :: cs.takeWhile Char.isDigit else firstDigitRun cs

/-- Python `s.zfill(w)` on a digit string: pad on the left with `'0'` up to
width `w`; a longer string is returned unchanged. -/
def zfill (s : String) (w : Nat) : String :=
  ⟨List.replicate (w - s.data.length) '0' ++ s.data⟩

/-- Embeds `to_4digit_score`: NaN gives `"0000"`, otherwise the value is
stripped, its first digit run extracted and zero-filled to width 4; no
digits gives `"0000"`. -/
def to_4digit_score (val : Option String) : String :=
  match val with
  | none => "0000"
  | some v =>
    match firstDigitRun (pyStrip v).data with
    | [] => "0000"
    | ds => zfill ⟨ds⟩ 4

/-! ### `process_codes` (source lines 33-77) -/

/-- One row of the conditions table as `process_codes` sees it: the
`PACP_Code` cell (`none` = NaN) and the stringified `Continuous` cell. -/
structure ObsRow where
  code : Option String
  continuous : String
deriving DecidableEq

/-- The row filter of source line 38:
`~df['PACP_Code'].isin(unwanted_codes) & df['PACP_Code'].notna()`.
Note that the raw cell value is tested against the set — no stripping or
upper-casing happens before the membership test, and a non-null empty
string passes `notna`. -/
def keepRow (unwanted : List String) (r : ObsRow) : Bool :=
  match r.code with
  | none => false
  | some c => decide (c ∉ unwanted)

/-- `df_filtered` of source line 38. -/
def df_filtered (df : List ObsRow) (unwanted : List String) : List ObsRow :=
  df.filter (keepRow unwanted)

/-- `str(row['PACP_Code']).strip()` (source lines 46 and 63). -/
def codeStr (r : ObsRow) : String :=
  pyStrip (r.code.getD "")

/-- `str(row.get('Continuous', '')).strip().upper()` (source line 47). -/
def contStr (r : ObsRow) : String :=
  pyUpper (pyStrip r.continuous)

/-- Dict assignment `d[k] = v`: overwrite in place when the key is present,
append otherwise. -/
def insertOW (l : List ((String × String) × Nat)) (k : String × String) (v : Nat) :
    List ((String × String) × Nat) :=
  if l.any (fun p => p.1 == k) then l.map (fun p => if p.1 == k then (k, v) else p)
  else l ++ [(k, v)]

/-- One step of building `so_lookup` (source lines 48-49). -/
def soStep (acc : List ((String × String) × Nat)) (p : Nat × ObsRow) :
    List ((String × String) × Nat) :=
  if headIs (contStr p.2) 'S' then
    insertOW acc (codeStr p.2, strTail (contStr p.2)) p.1
  else acc

/-- One step of building `fo_lookup` (source lines 50-51; the `elif` means a
marker starting with `'S'` is never registered here). -/
def foStep (acc : List ((String × String) × Nat)) (p : Nat × ObsRow) :
    List ((String × String) × Nat) :=
  if headIs (contStr p.2) 'S' then acc
  else if headIs (contStr p.2) 'F' then
    insertOW acc (codeStr p.2, strTail (contStr p.2)) p.1
  else acc

/-- `so_lookup` built over the enumerated filtered rows (source lines 44-51).
The pandas index of a row is modelled by its position in the filtered
frame; indices are only ever compared for identity. -/
def soLookup (e : List (Nat × ObsRow)) : List ((String × String) × Nat) :=
  e.foldl soStep []

/-- `fo_lookup` (source lines 44-51). -/
def foLookup (e : List (Nat × ObsRow)) : List ((String × String) × Nat) :=
  e.foldl foStep []

/-- Dict lookup `d.get(k)` / `d[k]`. -/
def lookupKey (l : List ((String × String) × Nat)) (k : String × String) : Option Nat :=
  (l.find? (fun p => p.1 == k)).map (·.2)

/-- One step of the pairing loop (source lines 54-58) restricted to
`used_indices`: a matched key contributes its start index and finish
index. -/
def pairStep (fo : List ((String × String) × Nat)) (acc : List Nat)
    (p : (String × String) × Nat) : List Nat :=
  match lookupKey fo p.1 with
  | some j => acc ++ [p.2, j]
  | none => acc

/-- `used_indices` (a Python set; modelled as a list queried by
membership). -/
def usedIdx (so fo : List ((String × String) × Nat)) : List Nat :=
  so.foldl (pairStep fo) []

/-- The value `continuous_counts[code]` after the pairing loop: the number
of matched start-lookup keys carrying this code. -/
def contCountRaw (so fo : List ((String × String) × Nat)) (code : String) : Nat :=
  (so.filter (fun p => p.1.1 == code && (lookupKey fo p.1).isSome)).length

/-- `continuous_counts.get(code, 1)` (source line 67). -/
def contCount (so fo : List ((String × String) × Nat)) (code : String) : Nat :=
  let n := contCountRaw so fo code
  if n == 0 then 1 else n

/-- `(df_filtered['PACP_Code'] == code).sum()` (source line 73): the raw
`PACP_Code` cells of ALL surviving rows are compared against the stripped
code string. -/
def countAll (fil : List ObsRow) (code : String) : Nat :=
  (fil.filter (fun r => r.code == some code)).length

/-- `f"{code} ©"` / `f"{code} ©X{count}"` (source line 68). -/
def renderCont (code : String) (count : Nat) : String :=
  if count == 1 then code ++ " ©" else code ++ " ©X" ++ toString count

/-- `f"{code} X{count}"` / bare code (source line 74). -/
def renderNorm (code : String) (count : Nat) : String :=
  if count > 1 then code ++ " X" ++ toString count else code

/-- State of the emission loop (source lines 60-75): the accumulated
output and the two seen-sets. -/
structure EmitState where
  final : List String
  seenNormal : List String
  seenCont : List String

/-- One iteration of the emission loop (source lines 62-75). -/
def emitStep (fil : List ObsRow) (so fo : List ((String × String) × Nat))
    (used : List Nat) (st : EmitState) (p : Nat × ObsRow) : EmitState :=
  let code := codeStr p.2
  if p.1 ∈ used then
    if code ∈ st.seenCont then st
    else ⟨st.final ++ [renderCont code (contCount so fo code)],
          st.seenNormal, st.seenCont ++ [code]⟩
  else
    if code ∈ st.seenNormal then st
    else ⟨st.final ++ [renderNorm code (countAll fil code)],
          st.seenNormal ++ [code], st.seenCont⟩

/-- The whole consolidation pipeline on the already-filtered frame. -/
def pc_emit (fil : List ObsRow) : List String :=
  if fil.isEmpty then [] else
  (fil.enum.foldl
    (emitStep fil (soLookup fil.enum) (foLookup fil.enum)
      (usedIdx (soLookup fil.enum) (foLookup fil.enum)))
    ⟨[], [], []⟩).final

/-- Embeds `process_codes` (source lines 33-77). -/
def process_codes (rows : List ObsRow) (unwanted : List String) : List String :=
  pc_emit (df_filtered rows unwanted)

/-! ### Annotated emission

`pc_emitA` repeats the emission loop of `pc_emit` verbatim but records,
next to each emitted string, the pair (code, category) that produced it
(`true` = continuous entry, `false` = ordinary entry).  It is related to
`pc_emit` by `pc_emit_eq_emitA` below and lets the dedup/ordering
invariant of the output be stated. -/

/-- Emission state carrying (key, string) pairs. -/
structure EmitStateA where
  finalA : List ((String × Bool) × String)
  seenNormalA : List String
  seenContA : List String

/-- The emission step of `emitStep`, additionally recording the
(code, category) key of each appended entry. -/
def emitStepA (fil : List ObsRow) (so fo : List ((String × String) × Nat))
    (used : List Nat) (st : EmitStateA) (p : Nat × ObsRow) : EmitStateA :=
  let code := codeStr p.2
  if p.1 ∈ used then
    if code ∈ st.seenContA then st
    else ⟨st.finalA ++ [((code, true), renderCont code (contCount so fo code))],
          st.seenNormalA, st.seenContA ++ [code]⟩
  else
    if code ∈ st.seenNormalA then st
    else ⟨st.finalA ++ [((code, false), renderNorm code (countAll fil code))],
          st.seenNormalA ++ [code], st.seenContA⟩

/-- The annotated emission pipeline on the filtered frame. -/
def pc_emitA (fil : List ObsRow) : List ((String × Bool) × String) :=
  (fil.enum.foldl
    (emitStepA fil (soLookup fil.enum) (foLookup fil.enum)
      (usedIdx (soLookup fil.enum) (foLookup fil.enum)))
    ⟨[], [], []⟩).finalA

/-- `process_codes` with each entry annotated by its (code, category). -/
def annotatedCodes (rows : List ObsRow) (unwanted : List String) :
    List ((String × Bool) × String) :=
  pc_emitA (df_filtered rows unwanted)

/-- The (code, category) key each surviving row would emit under: its
stripped code paired with whether the row was consumed by a pairing. -/
def rowKeys (rows : List ObsRow) (unwanted : List String) : List (String × Bool) :=
  let e := (df_filtered rows unwanted).enum
  e.map (fun p => (codeStr p.2, decide (p.1 ∈ usedIdx (soLookup e) (foLookup e))))

/-- Keep the first occurrence of each element, dropping later repeats
(`seen` holds the elements already kept). -/
def firstDedupAux {α : Type} [DecidableEq α] (seen : List α) : List α → List α
  | [] => []
  | a :: l => if a ∈ seen then firstDedupAux seen l else a :: firstDedupAux (a :: seen) l

/-- First-occurrence deduplication of a list. -/
def firstDedup {α : Type} [DecidableEq α] (l : List α) : List α :=
  firstDedupAux [] l

/-! ### `process_files` (source lines 79-147)

Only the columns that feed the claims are carried: the two join keys, the
two columns consumed by `process_codes` and one representative rating
scalar.  The remaining per-group scalar columns are copied verbatim from
the first row of the group and play no role in any claim.  `none` models
a NaN cell.  `InspectionID` is modelled as a non-null key (every claim's
input has one). -/

/-- A row of the conditions export. -/
structure CondRow where
  inspectionID : String
  pacpCode : Option String
  continuous : String
deriving DecidableEq

/-- A row of the inspections export (restricted to the used columns). -/
structure InspRow where
  inspectionID : String
  pipeSegmentReference : Option String
deriving DecidableEq

/-- A row of the ratings export (restricted to the used columns). -/
structure RatRow where
  inspectionID : String
  stQuickRating : Option String
deriving DecidableEq

/-- A row of the first merge (conditions left-joined with inspections). -/
structure Merged1 where
  inspectionID : String
  pacpCode : Option String
  continuous : String
  pipeSegmentReference : Option String
deriving DecidableEq

/-- A row of the second merge (ratings added). -/
structure MergedRow where
  inspectionID : String
  pacpCode : Option String
  continuous : String
  pipeSegmentReference : Option String
  stQuickRating : Option String
deriving DecidableEq

/-- The joined rows one condition row contributes: one per matching
inspection row, or a single NaN-extended row when nothing matches. -/
def joinInspRow (dfi : List InspRow) (c : CondRow) : List Merged1 :=
  let ms := dfi.filter (fun i => i.inspectionID == c.inspectionID)
  if ms.isEmpty then [⟨c.inspectionID, c.pacpCode, c.continuous, none⟩]
  else ms.map (fun i => ⟨c.inspectionID, c.pacpCode, c.continuous, i.pipeSegmentReference⟩)

/-- The left join of source lines 86-92: every condition row is kept; a
row with matching inspection rows is replicated once per match (pandas
`how='left'`), a row with no match gets NaN for the joined columns. -/
def merge_inspections (dfc : List CondRow) (dfi : List InspRow) : List Merged1 :=
  dfc.flatMap (joinInspRow dfi)

/-- The joined rows one merged row contributes in the ratings join. -/
def joinRatRow (dfr : List RatRow) (m : Merged1) : List MergedRow :=
  let ms := dfr.filter (fun x => x.inspectionID == m.inspectionID)
  if ms.isEmpty then
    [⟨m.inspectionID, m.pacpCode, m.continuous, m.pipeSegmentReference, none⟩]
  else ms.map (fun x =>
    ⟨m.inspectionID, m.pacpCode, m.continuous, m.pipeSegmentReference, x.stQuickRating⟩)

/-- The left join of source lines 95-98. -/
def merge_ratings (dfm : List Merged1) (dfr : List RatRow) : List MergedRow :=
  dfm.flatMap (joinRatRow dfr)

/-- The group keys of `dfm.groupby(['InspectionID', 'Pipe_Segment_Reference'])`
(source line 101).  pandas drops every row in which a grouping key is NaN,
so only rows with a non-null segment reference contribute a key.  pandas
additionally sorts the group keys; sorting only permutes the output rows
and no claim here depends on row order, so keys are taken in first-
occurrence order. -/
def groupKeys (dfm : List MergedRow) : List (String × String) :=
  firstDedup (dfm.filterMap (fun r =>
    r.pipeSegmentReference.map (fun s => (r.inspectionID, s))))

/-- The rows of one group: the merged rows carrying the group's key. -/
def groupRows (dfm : List MergedRow) (k : String × String) : List MergedRow :=
  dfm.filter (fun r => r.inspectionID == k.1 && r.pipeSegmentReference == some k.2)

/-- Restriction of a merged row to the columns `process_codes` reads. -/
def toObs (r : MergedRow) : ObsRow :=
  ⟨r.pacpCode, r.continuous⟩

/-- An output row (restricted to the modelled columns). -/
structure OutputRow where
  inspectionID : String
  pipeSegmentReference : String
  strScore : String
  codes : List String
deriving DecidableEq

/-- Embeds `process_files` (source lines 79-147): join the three tables,
group by (InspectionID, Pipe_Segment_Reference), and emit one row per
group with the group's consolidated code list and first-row scalars. -/
def process_files (dfc : List CondRow) (dfi : List InspRow) (dfr : List RatRow)
    (unwanted : List String) : List OutputRow :=
  let dfm := merge_ratings (merge_inspections dfc dfi) dfr
  (groupKeys dfm).map (fun k =>
    let g := groupRows dfm k
    ⟨k.1, k.2, to_4digit_score (g.head?.bind (·.stQuickRating)),
      process_codes (g.map toObs) unwanted⟩)

/-- The distinct (InspectionID, Pipe_Segment_Reference) pairs present in
the joined table, null segment references included.  This is the count
the specification refers to; it is compared against the code's grouping,
which drops null keys. -/
def allKeyPairs (dfm : List MergedRow) : List (String × Option String) :=
  firstDedup (dfm.map (fun r => (r.inspectionID, r.pipeSegmentReference)))

/-! ### The exclusion-set editor (source lines 183-198) -/

/-- The `DEFAULT_UNWANTED` set of source lines 7-10 (a set; modelled as a
duplicate-free list queried by membership). -/
def DEFAULT_UNWANTED : List String :=
  ["AMH", "MWL", "TF", "TS", "TSA", "TFA", "MGO", "MMC", "MSC", "ACB",
   "MWM", "AEP", "TFC", "TB", "ACOM", "TFD", "TBA", "TBD", "ATC", "TBC", "AOC"]

/-- Split a character list at every character satisfying `p`; adjacent
delimiters yield empty tokens, as Python's `str.split(",")` does. -/
def splitCharsAux (p : Char → Bool) : List Char → List Char → List (List Char)
  | [], acc => [acc.reverse]
  | c :: cs, acc =>
    if p c then acc.reverse :: splitCharsAux p cs [] else splitCharsAux p cs (c :: acc)

/-- `text.replace("\n", ",").split(",")` (source lines 188 and 195):
tokens are the maximal runs between commas and newlines. -/
def splitTokensCN (s : String) : List String :=
  (splitCharsAux (fun c => c == ',' || c == '\n') s.data []).map (fun cs => ⟨cs⟩)

/-- Python truthiness of `text.strip()` (source lines 187 and 194). -/
def pyTruthyStrip (s : String) : Bool :=
  !(pyStrip s).data.isEmpty

/-- `tok.strip().upper()` (source lines 189 and 196). -/
def cleanTok (t : String) : String :=
  pyUpper (pyStrip t)

/-- One iteration of the add loop (source lines 188-191): add the cleaned
token to the set when it is non-empty. -/
def addStep (acc : List String) (t : String) : List String :=
  let cod := cleanTok t
  if cod.data.isEmpty then acc
  else if cod ∈ acc then acc else acc ++ [cod]

/-- One iteration of the remove loop (source lines 195-198): remove the
cleaned token when it is present. -/
def removeStep (acc : List String) (t : String) : List String :=
  let cod := cleanTok t
  if cod ∈ acc then acc.filter (fun x => decide (x ≠ cod)) else acc

/-- Embeds the `run_btn` handler's construction of the unwanted set
(source lines 183-198): start from the default set, apply the add deltas,
then the remove deltas. -/
def build_unwanted (addText removeText : String) : List String :=
  let u0 := DEFAULT_UNWANTED
  let u1 := if pyTruthyStrip addText then (splitTokensCN addText).foldl addStep u0 else u0
  if pyTruthyStrip removeText then (splitTokensCN removeText).foldl removeStep u1 else u1

/-- The tokenization the specification describes: delimiters are commas
OR WHITESPACE.  Written from the spec's words, to be compared with
`splitTokensCN`, which is what the code does. -/
def splitTokensSpecWS (s : String) : List String :=
  (splitCharsAux (fun c => c == ',' || isWsChar c) s.data []).map (fun cs => ⟨cs⟩)

/-- The editor as the specification describes it: identical to
`build_unwanted` except that tokens are split on commas or whitespace.
Written from the spec's words for comparison. -/
def build_unwanted_spec (addText removeText : String) : List String :=
  let u0 := DEFAULT_UNWANTED
  let u1 := if pyTruthyStrip addText then (splitTokensSpecWS addText).foldl addStep u0 else u0
  if pyTruthyStrip removeText then (splitTokensSpecWS removeText).foldl removeStep u1 else u1

/-! ### Structural lemmas about the lookups and the pairing -/

/-- A member of `insertOW l k v` is an old entry or the new binding. -/
theorem mem_insertOW {l : List ((String × String) × Nat)} {k : String × String}
    {v : Nat} {x : (String × String) × Nat} (hx : x ∈ insertOW l k v) :
    x ∈ l ∨ x = (k, v) := by
  unfold insertOW at hx
  by_cases h : l.any (fun p => p.1 == k)
  · rw [if_pos h] at hx
    obtain ⟨y, hy, hxy⟩ := List.mem_map.mp hx
    by_cases hk : y.1 == k
    · rw [if_pos hk] at hxy
      exact Or.inr hxy.symm
    · rw [if_neg hk] at hxy
      exact Or.inl (hxy ▸ hy)
  · rw [if_neg h] at hx
    rcases List.mem_append.mp hx with h1 | h2
    · exact Or.inl h1
    · exact Or.inr (by simpa using h2)

/-- Every binding produced by the start-lookup fold is an old binding or
the registration of an S-marked processed row. -/
theorem foldl_soStep_mem {x : (String × String) × Nat} :
    ∀ (l : List (Nat × ObsRow)) (acc : List ((String × String) × Nat)),
    x ∈ l.foldl soStep acc →
    x ∈ acc ∨ ∃ p ∈ l, headIs (contStr p.2) 'S' = true ∧
      x = ((codeStr p.2, strTail (contStr p.2)), p.1)
  | [], _, hx => Or.inl hx
  | p :: l, acc, hx => by
    rcases foldl_soStep_mem l (soStep acc p) hx with h | ⟨q, hq, hq2⟩
    · unfold soStep at h
      by_cases hS : headIs (contStr p.2) 'S'
      · rw [if_pos hS] at h
        rcases mem_insertOW h with h1 | h2
        · exact Or.inl h1
        · exact Or.inr ⟨p, List.mem_cons_self p l, hS, h2⟩
      · rw [if_neg hS] at h
        exact Or.inl h
    · exact Or.inr ⟨q, List.mem_cons_of_mem p hq, hq2⟩

/-- Origin of a start-lookup binding: an S-marked row of the enumerated
frame with that key and index. -/
theorem soLookup_origin {e : List (Nat × ObsRow)} {x : (String × String) × Nat}
    (hx : x ∈ soLookup e) :
    ∃ i : Nat, ∃ r : ObsRow, (i, r) ∈ e ∧ headIs (contStr r) 'S' = true ∧
      x = ((codeStr r, strTail (contStr r)), i) := by
  rcases foldl_soStep_mem e [] hx with h | ⟨p, hp, hS, hkey⟩
  · simp at h
  · exact ⟨p.1, p.2, hp, hS, hkey⟩

/-- Every binding produced by the finish-lookup fold is an old binding or
the registration of an F-marked (and not S-marked) processed row. -/
theorem foldl_foStep_mem {x : (String × String) × Nat} :
    ∀ (l : List (Nat × ObsRow)) (acc : List ((String × String) × Nat)),
    x ∈ l.foldl foStep acc →
    x ∈ acc ∨ ∃ p ∈ l, headIs (contStr p.2) 'S' = false ∧
      headIs (contStr p.2) 'F' = true ∧
      x = ((codeStr p.2, strTail (contStr p.2)), p.1)
  | [], _, hx => Or.inl hx
  | p :: l, acc, hx => by
    rcases foldl_foStep_mem l (foStep acc p) hx with h | ⟨q, hq, hq2⟩
    · unfold foStep at h
      by_cases hS : headIs (contStr p.2) 'S'
      · rw [if_pos hS] at h
        exact Or.inl h
      · rw [if_neg hS] at h
        by_cases hF : headIs (contStr p.2) 'F'
        · rw [if_pos hF] at h
          rcases mem_insertOW h with h1 | h2
          · exact Or.inl h1
          · exact Or.inr ⟨p, List.mem_cons_self p l, Bool.eq_false_iff.mpr hS, hF, h2⟩
        · rw [if_neg hF] at h
          exact Or.inl h
    · exact Or.inr ⟨q, List.mem_cons_of_mem p hq, hq2⟩

/-- Origin of a finish-lookup binding. -/
theorem foLookup_origin {e : List (Nat × ObsRow)} {x : (String × String) × Nat}
    (hx : x ∈ foLookup e) :
    ∃ i : Nat, ∃ r : ObsRow, (i, r) ∈ e ∧ headIs (contStr r) 'S' = false ∧
      headIs (contStr r) 'F' = true ∧
      x = ((codeStr r, strTail (contStr r)), i) := by
  rcases foldl_foStep_mem e [] hx with h | ⟨p, hp, hS, hF, hkey⟩
  · simp at h
  · exact ⟨p.1, p.2, hp, hS, hF, hkey⟩

/-- Every index accumulated by the pairing loop comes from a matched
start-lookup binding: it is the start index or the matched finish
index. -/
theorem foldl_pairStep_mem {fo : List ((String × String) × Nat)} {i : Nat} :
    ∀ (l : List ((String × String) × Nat)) (acc : List Nat),
    i ∈ l.foldl (pairStep fo) acc →
    i ∈ acc ∨ ∃ p ∈ l, ∃ j, lookupKey fo p.1 = some j ∧ (i = p.2 ∨ i = j)
  | [], _, hx => Or.inl hx
  | p :: l, acc, hx => by
    rcases foldl_pairStep_mem l (pairStep fo acc p) hx with h | ⟨q, hq, hj⟩
    · unfold pairStep at h
      cases hl : lookupKey fo p.1 with
      | none =>
        rw [hl] at h
        exact Or.inl h
      | some j =>
        rw [hl] at h
        rcases List.mem_append.mp h with h1 | h2
        · exact Or.inl h1
        · exact Or.inr ⟨p, List.mem_cons_self p l, j, hl, by simpa using h2⟩
    · exact Or.inr ⟨q, List.mem_cons_of_mem p hq, hj⟩

/-- Origin of a consumed index. -/
theorem usedIdx_origin {so fo : List ((String × String) × Nat)} {i : Nat}
    (hi : i ∈ usedIdx so fo) :
    ∃ p ∈ so, ∃ j, lookupKey fo p.1 = some j ∧ (i = p.2 ∨ i = j) := by
  rcases foldl_pairStep_mem so [] hi with h | h
  · simp at h
  · exact h

/-- A successful dict lookup exhibits the binding. -/
theorem lookupKey_mem {l : List ((String × String) × Nat)} {k : String × String}
    {j : Nat} (h : lookupKey l k = some j) : (k, j) ∈ l := by
  unfold lookupKey at h
  cases hf : l.find? (fun p => p.1 == k) with
  | none => rw [hf] at h; simp at h
  | some q =>
    rw [hf] at h
    simp only [Option.map_some'] at h
    have hq := List.mem_of_find?_eq_some hf
    have hqk := List.find?_some hf
    have h1 : q.1 = k := by simpa using hqk
    have h2 : q = (k, j) := by
      cases q with
      | mk a b => simp_all
    exact h2 ▸ hq

/-- A failed dict lookup means no binding carries the key. -/
theorem lookupKey_none {l : List ((String × String) × Nat)} {k : String × String}
    (h : lookupKey l k = none) : ∀ x ∈ l, x.1 ≠ k := by
  unfold lookupKey at h
  have hf : l.find? (fun p => p.1 == k) = none := by
    cases hf : l.find? (fun p => p.1 == k) with
    | none => rfl
    | some q => rw [hf] at h; simp at h
  intro x hx
  have := List.find?_eq_none.mp hf x hx
  simpa using this

/-- Two enumerated entries with the same index hold the same row. -/
theorem enum_snd_unique {l : List ObsRow} {i : Nat} {r r' : ObsRow}
    (h1 : (i, r) ∈ l.enum) (h2 : (i, r') ∈ l.enum) : r = r' := by
  have e1 := List.mem_enum_iff_getElem?.mp h1
  have e2 := List.mem_enum_iff_getElem?.mp h2
  simp only at e1 e2
  rw [e1] at e2
  exact Option.some.inj e2

/-- A marker string cannot start with both `'S'` and `'F'`. -/
theorem headIs_SF {s : String} (hS : headIs s 'S' = true)
    (hF : headIs s 'F' = true) : False := by
  unfold headIs at hS hF
  cases h : s.data with
  | nil => rw [h] at hS; simp at hS
  | cons a l =>
    rw [h] at hS hF
    have h1 : a = 'S' := by simpa using hS
    have h2 : a = 'F' := by simpa using hF
    rw [h1] at h2
    simp at h2

/-! ### Claims C1, C2, C4, C5, C6 -/

/-- C1 counterexample: on the mixed group `[{D,S1},{D,F1},{D,""}]` with
nothing excluded, the output is NOT `["D ©", "D X1"]` — the ordinary
occurrence count is not computed over unconsumed rows only. -/
theorem mixed_group_ordinary_count_cex :
    process_codes [⟨some "D", "S1"⟩, ⟨some "D", "F1"⟩, ⟨some "D", ""⟩] []
      ≠ ["D ©", "D X1"] := by decide

/-- C1 amended: the ordinary-entry count of source line 73 ranges over ALL
surviving rows of the code, consumed ones included; on the mixed group the
count is 3 and the output is `["D ©", "D X3"]`. -/
theorem mixed_group_output :
    process_codes [⟨some "D", "S1"⟩, ⟨some "D", "F1"⟩, ⟨some "D", ""⟩] []
      = ["D ©", "D X3"] ∧
    countAll (df_filtered [⟨some "D", "S1"⟩, ⟨some "D", "F1"⟩, ⟨some "D", ""⟩] []) "D"
      = 3 :=
  ⟨by decide, by decide⟩

/-- C2 counterexample: the row filter does not normalize.  The code
`" d "` normalizes to `"D"`, which is in the exclusion set `{"D"}`, yet
the row survives and is emitted (as `"d"`); and a row whose code is the
empty string (which normalizes to empty) also survives and is emitted. -/
theorem filter_unnormalized_cex :
    (pyUpper (pyStrip " d ") ∈ (["D"] : List String) ∧
      process_codes [⟨some " d ", ""⟩] ["D"] = ["d"]) ∧
    (pyStrip "" = "" ∧ process_codes [⟨some "", ""⟩] [] = [""]) :=
  ⟨⟨by decide, by decide⟩, ⟨by decide, by decide⟩⟩

/-- C2 amended: a row is dropped iff its code cell is NaN or its RAW code
value (no trimming, no upper-casing) is a member of the exclusion set;
consequently filtering is idempotent — `process_codes` gives the same
result on the already-filtered rows. -/
theorem filter_raw_membership (rows : List ObsRow) (unwanted : List String) :
    process_codes rows unwanted = process_codes (df_filtered rows unwanted) unwanted ∧
    (∀ r : ObsRow, keepRow unwanted r = true ↔ ∃ c, r.code = some c ∧ c ∉ unwanted) := by
  constructor
  · show pc_emit (df_filtered rows unwanted)
        = pc_emit (df_filtered (df_filtered rows unwanted) unwanted)
    unfold df_filtered
    rw [List.filter_filter]
    simp [Bool.and_self]
  · intro r
    unfold keepRow
    cases hc : r.code with
    | none => simp
    | some c => simp

/-- C2 amended, witness at a concrete instance. -/
theorem filter_raw_membership_witness :
    process_codes [⟨some " d ", ""⟩, ⟨none, ""⟩] ["X"]
      = process_codes (df_filtered [⟨some " d ", ""⟩, ⟨none, ""⟩] ["X"]) ["X"] :=
  (filter_raw_membership [⟨some " d ", ""⟩, ⟨none, ""⟩] ["X"]).1

/-- The duplicate-suffix group of C4. -/
def rowsA4 : List ObsRow :=
  [⟨some "A", "S1"⟩, ⟨some "A", "F1"⟩, ⟨some "A", "S1"⟩, ⟨some "A", "F1"⟩]

/-- C4 confirmed: on `[{A,S1},{A,F1},{A,S1},{A,F1}]` each lookup holds a
single binding for the key `("A","1")` — the later registrations (row 2,
row 3) having overwritten the earlier ones — so exactly one pair forms:
the continuous-pair counter of `"A"` is 1 and exactly one start row and
one finish row (indices 2 and 3) are consumed. -/
theorem duplicate_suffix_single_pair :
    soLookup (df_filtered rowsA4 []).enum = [(("A", "1"), 2)] ∧
    foLookup (df_filtered rowsA4 []).enum = [(("A", "1"), 3)] ∧
    contCountRaw (soLookup (df_filtered rowsA4 []).enum)
      (foLookup (df_filtered rowsA4 []).enum) "A" = 1 ∧
    usedIdx (soLookup (df_filtered rowsA4 []).enum)
      (foLookup (df_filtered rowsA4 []).enum) = [2, 3] :=
  ⟨by decide, by decide, by decide, by decide⟩

/-- C5 confirmed: a single matched start/finish pair is consumed into the
single continuous entry `"A ©"`, for every exclusion set not containing
`"A"`. -/
theorem matched_pair_single_entry (u : List String) (h : "A" ∉ u) :
    process_codes [⟨some "A", "S1"⟩, ⟨some "A", "F1"⟩] u = ["A ©"] := by
  have hfil : df_filtered [⟨some "A", "S1"⟩, ⟨some "A", "F1"⟩] u
      = [⟨some "A", "S1"⟩, ⟨some "A", "F1"⟩] := by
    simp [df_filtered, keepRow, h]
  show pc_emit (df_filtered [⟨some "A", "S1"⟩, ⟨some "A", "F1"⟩] u) = ["A ©"]
  rw [hfil]
  decide

/-- C5 witness: the empty exclusion set. -/
theorem matched_pair_single_entry_witness :
    "A" ∉ ([] : List String) ∧
      process_codes [⟨some "A", "S1"⟩, ⟨some "A", "F1"⟩] [] = ["A ©"] :=
  ⟨by decide, matched_pair_single_entry [] (by decide)⟩

/-- C6 confirmed: a surviving row whose continuity marker has no partner
(an S-marked row whose (code, suffix) key is absent from the finish
lookup, or an F-marked row whose key is absent from the start lookup) is
never consumed by the pairing, hence is treated as an ordinary occurrence
by the emission loop; in particular the singleton group `[{C,S1}]`
produces exactly `["C"]`. -/
theorem unmatched_marker_ordinary :
    (∀ (fil : List ObsRow) (i : Nat) (r : ObsRow), (i, r) ∈ fil.enum →
      headIs (contStr r) 'S' = true →
      lookupKey (foLookup fil.enum) (codeStr r, strTail (contStr r)) = none →
      i ∉ usedIdx (soLookup fil.enum) (foLookup fil.enum)) ∧
    (∀ (fil : List ObsRow) (i : Nat) (r : ObsRow), (i, r) ∈ fil.enum →
      headIs (contStr r) 'F' = true →
      lookupKey (soLookup fil.enum) (codeStr r, strTail (contStr r)) = none →
      i ∉ usedIdx (soLookup fil.enum) (foLookup fil.enum)) ∧
    process_codes [⟨some "C", "S1"⟩] [] = ["C"] := by
  refine ⟨?_, ?_, by decide⟩
  · intro fil i r hmem hS hnone hused
    rcases usedIdx_origin hused with ⟨p, hp, j, hlook, hij⟩
    rcases soLookup_origin hp with ⟨i1, r1, hmem1, hS1, hkey1⟩
    rcases hij with hip | hij
    · have hip1 : i = i1 := by rw [hkey1] at hip; simpa using hip
      rw [← hip1] at hmem1
      have hr : r = r1 := enum_snd_unique hmem hmem1
      have hp1 : p.1 = (codeStr r, strTail (contStr r)) := by
        rw [hkey1, hr]
      rw [hp1, hnone] at hlook
      simp at hlook
    · have hfo := lookupKey_mem hlook
      rcases foLookup_origin hfo with ⟨i2, r2, hmem2, hS2, hF2, hkey2⟩
      have hj : j = i2 := congrArg Prod.snd hkey2
      rw [hij, hj] at hmem
      have hr : r = r2 := enum_snd_unique hmem hmem2
      rw [hr] at hS
      rw [hS] at hS2
      simp at hS2
  · intro fil i r hmem hF hnone hused
    rcases usedIdx_origin hused with ⟨p, hp, j, hlook, hij⟩
    rcases soLookup_origin hp with ⟨i1, r1, hmem1, hS1, hkey1⟩
    rcases hij with hip | hij
    · have hip1 : i = i1 := by rw [hkey1] at hip; simpa using hip
      rw [← hip1] at hmem1
      have hr : r = r1 := enum_snd_unique hmem hmem1
      rw [← hr] at hS1
      exact headIs_SF hS1 hF
    · have hfo := lookupKey_mem hlook
      rcases foLookup_origin hfo with ⟨i2, r2, hmem2, hS2, hF2, hkey2⟩
      have hj : j = i2 := congrArg Prod.snd hkey2
      rw [hij, hj] at hmem
      have hr : r = r2 := enum_snd_unique hmem hmem2
      have hp1 : p.1 = (codeStr r, strTail (contStr r)) := by
        have h1 := congrArg Prod.fst hkey2
        rw [hr]
        exact h1
      exact lookupKey_none hnone p hp hp1

/-- C6 witness: the singleton S-marked row is not consumed. -/
theorem unmatched_marker_ordinary_witness :
    ((0, (⟨some "C", "S1"⟩ : ObsRow)) ∈ ([⟨some "C", "S1"⟩] : List ObsRow).enum) ∧
    headIs (contStr ⟨some "C", "S1"⟩) 'S' = true ∧
    0 ∉ usedIdx (soLookup ([⟨some "C", "S1"⟩] : List ObsRow).enum)
      (foLookup ([⟨some "C", "S1"⟩] : List ObsRow).enum) :=
  ⟨by decide, by decide,
    unmatched_marker_ordinary.1 [⟨some "C", "S1"⟩] 0 ⟨some "C", "S1"⟩
      (by decide) (by decide) (by decide)⟩

/-! ### Claims C3 and C10: the score formatter -/

/-- The first digit run the formatter extracts from a cell value (empty
for NaN and for values without digits). -/
def scoreRun (val : Option String) : List Char :=
  match val with
  | none => []
  | some v => firstDigitRun (pyStrip v).data

/-- Every character of a first digit run is a digit. -/
theorem firstDigitRun_digits : ∀ cs : List Char,
    ∀ c ∈ firstDigitRun cs, c.isDigit = true
  | [] => by simp [firstDigitRun]
  | c :: cs => by
    unfold firstDigitRun
    by_cases h : c.isDigit
    · rw [if_pos h]
      intro x hx
      rcases List.mem_cons.mp hx with h1 | h2
      · rw [h1]; exact h
      · exact List.mem_takeWhile_imp h2
    · rw [if_neg h]
      exact firstDigitRun_digits cs

/-- C3 counterexample: a value whose first digit run is longer than four
digits is returned at its full length; the formatter does not always
return a string of exactly 4 characters. -/
theorem score_truncation_cex :
    (to_4digit_score (some "12345")).data.length = 5 ∧
    to_4digit_score (some "12345") = "12345" :=
  ⟨by decide, by decide⟩

/-- Padding is inert on a string of four or more characters. -/
theorem zfill_long {s : String} (h : 4 ≤ s.data.length) : zfill s 4 = s := by
  unfold zfill
  have h0 : 4 - s.data.length = 0 := by omega
  rw [h0]
  rfl

/-- C3 amended: the result length is the maximum of 4 and the length of
the first digit run — zero-padded up to 4, never truncated — and a value
with no digits (or a missing value) yields `"0000"`. -/
theorem score_length_eq_max (val : Option String) :
    (to_4digit_score val).data.length = max 4 (scoreRun val).length ∧
    (scoreRun val = [] → to_4digit_score val = "0000") := by
  constructor
  · cases val with
    | none => decide
    | some v =>
      show (match firstDigitRun (pyStrip v).data with
            | [] => "0000"
            | ds => zfill ⟨ds⟩ 4).data.length
          = max 4 (firstDigitRun (pyStrip v).data).length
      cases firstDigitRun (pyStrip v).data with
      | nil => decide
      | cons d ds =>
        show (List.replicate (4 - (d :: ds).length) '0' ++ (d :: ds)).length
            = max 4 (d :: ds).length
        simp only [List.length_append, List.length_replicate, List.length_cons]
        omega
  · intro h
    cases val with
    | none => rfl
    | some v =>
      simp only [scoreRun] at h
      simp [to_4digit_score, h]

/-- C3 amended, witness: a digit-free value. -/
theorem score_length_eq_max_witness :
    scoreRun (some "abc") = [] ∧ to_4digit_score (some "abc") = "0000" :=
  ⟨by decide, (score_length_eq_max (some "abc")).2 (by decide)⟩

/-- C10 confirmed: for every input (missing values included — the
embedding is total, as the Python function is guarded by `pd.isna`), the
result consists only of digit characters, has length at least 4, and a
first digit run of four or more digits is returned at its full length,
unshortened. -/
theorem score_shape (val : Option String) :
    (∀ c ∈ (to_4digit_score val).data, c.isDigit = true) ∧
    4 ≤ (to_4digit_score val).data.length ∧
    (∀ v, val = some v → 4 ≤ (firstDigitRun (pyStrip v).data).length →
      to_4digit_score val = ⟨firstDigitRun (pyStrip v).data⟩) := by
  refine ⟨?_, ?_, ?_⟩
  · cases val with
    | none => decide
    | some v =>
      show ∀ c ∈ (match firstDigitRun (pyStrip v).data with
                  | [] => "0000"
                  | ds => zfill ⟨ds⟩ 4).data, c.isDigit = true
      cases hr : firstDigitRun (pyStrip v).data with
      | nil => decide
      | cons d ds =>
        intro c hc
        have hc2 : c ∈ List.replicate (4 - (d :: ds).length) '0' ++ (d :: ds) := hc
        rcases List.mem_append.mp hc2 with h1 | h2
        · rw [List.eq_of_mem_replicate h1]; decide
        · exact firstDigitRun_digits (pyStrip v).data c (by rw [hr]; exact h2)
  · have h := (score_length_eq_max val).1
    rw [h]
    exact Nat.le_max_left 4 _
  · intro v hv hlen
    rw [hv]
    show (match firstDigitRun (pyStrip v).data with
          | [] => "0000"
          | ds => zfill ⟨ds⟩ 4) = ⟨firstDigitRun (pyStrip v).data⟩
    cases hr : firstDigitRun (pyStrip v).data with
    | nil =>
      rw [hr] at hlen
      simp at hlen
    | cons d ds =>
      rw [hr] at hlen
      exact zfill_long hlen

/-- C10 witness: a five-digit run embedded in other characters. -/
theorem score_shape_witness :
    some " a12345b " = some " a12345b " ∧
    4 ≤ (firstDigitRun (pyStrip " a12345b ").data).length ∧
    to_4digit_score (some " a12345b ") = ⟨firstDigitRun (pyStrip " a12345b ").data⟩ :=
  ⟨rfl, by decide,
    (score_shape (some " a12345b ")).2.2 " a12345b " rfl (by decide)⟩

/-! ### Claim C7: one entry per (code, category), in first-encounter order -/

/-- Forgetting the annotations of an annotated emission state. -/
def projA (st : EmitStateA) : EmitState :=
  ⟨st.finalA.map (·.2), st.seenNormalA, st.seenContA⟩

/-- The two emission steps agree modulo the annotation. -/
theorem emitStep_projA (fil : List ObsRow) (so fo : List ((String × String) × Nat))
    (used : List Nat) (st : EmitStateA) (p : Nat × ObsRow) :
    emitStep fil so fo used (projA st) p = projA (emitStepA fil so fo used st p) := by
  simp only [emitStep, emitStepA, projA]
  split_ifs <;> simp [List.map_append]

/-- The two emission folds agree modulo the annotation. -/
theorem foldl_emit_projA (fil : List ObsRow) (so fo : List ((String × String) × Nat))
    (used : List Nat) :
    ∀ (e : List (Nat × ObsRow)) (st : EmitStateA),
    e.foldl (emitStep fil so fo used) (projA st)
      = projA (e.foldl (emitStepA fil so fo used) st)
  | [], _ => rfl
  | p :: e, st => by
    show e.foldl (emitStep fil so fo used) (emitStep fil so fo used (projA st) p)
        = projA ((p :: e).foldl (emitStepA fil so fo used) st)
    rw [emitStep_projA]
    exact foldl_emit_projA fil so fo used e (emitStepA fil so fo used st p)

/-- `pc_emit` is the annotated emission with the annotations dropped. -/
theorem pc_emit_eq_emitA (fil : List ObsRow) :
    pc_emit fil = (pc_emitA fil).map (·.2) := by
  unfold pc_emit pc_emitA
  by_cases h : fil.isEmpty
  · rw [if_pos h]
    have he : fil = [] := List.isEmpty_iff.mp h
    subst he
    rfl
  · rw [if_neg h]
    have h2 := congrArg EmitState.final
      (foldl_emit_projA fil (soLookup fil.enum) (foLookup fil.enum)
        (usedIdx (soLookup fil.enum) (foLookup fil.enum)) fil.enum ⟨[], [], []⟩)
    exact h2

/-- The keys of the annotated emission are the first-occurrence
deduplication of the per-row (code, category) scan, relative to the keys
already recorded in the seen-sets. -/
theorem foldl_emitA_keys (fil : List ObsRow) (so fo : List ((String × String) × Nat))
    (used : List Nat) :
    ∀ (e : List (Nat × ObsRow)) (st : EmitStateA) (seen : List (String × Bool)),
    (∀ c : String, c ∈ st.seenContA ↔ (c, true) ∈ seen) →
    (∀ c : String, c ∈ st.seenNormalA ↔ (c, false) ∈ seen) →
    ((e.foldl (emitStepA fil so fo used) st).finalA).map (·.1)
      = st.finalA.map (·.1)
        ++ firstDedupAux seen (e.map (fun p => (codeStr p.2, decide (p.1 ∈ used))))
  | [], st, seen, _, _ => by simp [firstDedupAux]
  | p :: e, st, seen, hC, hN => by
    simp only [List.foldl_cons, List.map_cons]
    by_cases hu : p.1 ∈ used
    · have hd : decide (p.1 ∈ used) = true := by simp [hu]
      rw [hd]
      by_cases hseen : codeStr p.2 ∈ st.seenContA
      · have hstep : emitStepA fil so fo used st p = st := by
          simp only [emitStepA]
          rw [if_pos hu, if_pos hseen]
        have hmem : (codeStr p.2, true) ∈ seen := (hC (codeStr p.2)).mp hseen
        rw [hstep, firstDedupAux, if_pos hmem]
        exact foldl_emitA_keys fil so fo used e st seen hC hN
      · have hstep : emitStepA fil so fo used st p
            = ⟨st.finalA ++ [((codeStr p.2, true),
                renderCont (codeStr p.2) (contCount so fo (codeStr p.2)))],
              st.seenNormalA, st.seenContA ++ [codeStr p.2]⟩ := by
          simp only [emitStepA]
          rw [if_pos hu, if_neg hseen]
        have hmem : (codeStr p.2, true) ∉ seen := fun hm => hseen ((hC (codeStr p.2)).mpr hm)
        rw [hstep, firstDedupAux, if_neg hmem]
        have hC2 : ∀ c : String, c ∈ st.seenContA ++ [codeStr p.2]
            ↔ (c, true) ∈ (codeStr p.2, true) :: seen := by
          intro c
          simp only [List.mem_append, List.mem_cons, List.mem_singleton, Prod.mk.injEq,
            hC c, and_true]
          tauto
        have hN2 : ∀ c : String, c ∈ st.seenNormalA
            ↔ (c, false) ∈ (codeStr p.2, true) :: seen := by
          intro c
          simp only [List.mem_cons, Prod.mk.injEq, hN c]
          tauto
        rw [foldl_emitA_keys fil so fo used e
          ⟨st.finalA ++ [((codeStr p.2, true),
              renderCont (codeStr p.2) (contCount so fo (codeStr p.2)))],
            st.seenNormalA, st.seenContA ++ [codeStr p.2]⟩
          ((codeStr p.2, true) :: seen) hC2 hN2]
        simp [List.map_append, List.append_assoc]
    · have hd : decide (p.1 ∈ used) = false := by simp [hu]
      rw [hd]
      by_cases hseen : codeStr p.2 ∈ st.seenNormalA
      · have hstep : emitStepA fil so fo used st p = st := by
          simp only [emitStepA]
          rw [if_neg hu, if_pos hseen]
        have hmem : (codeStr p.2, false) ∈ seen := (hN (codeStr p.2)).mp hseen
        rw [hstep, firstDedupAux, if_pos hmem]
        exact foldl_emitA_keys fil so fo used e st seen hC hN
      · have hstep : emitStepA fil so fo used st p
            = ⟨st.finalA ++ [((codeStr p.2, false),
                renderNorm (codeStr p.2) (countAll fil (codeStr p.2)))],
              st.seenNormalA ++ [codeStr p.2], st.seenContA⟩ := by
          simp only [emitStepA]
          rw [if_neg hu, if_neg hseen]
        have hmem : (codeStr p.2, false) ∉ seen := fun hm => hseen ((hN (codeStr p.2)).mpr hm)
        rw [hstep, firstDedupAux, if_neg hmem]
        have hC2 : ∀ c : String, c ∈ st.seenContA
            ↔ (c, true) ∈ (codeStr p.2, false) :: seen := by
          intro c
          simp only [List.mem_cons, Prod.mk.injEq, hC c]
          tauto
        have hN2 : ∀ c : String, c ∈ st.seenNormalA ++ [codeStr p.2]
            ↔ (c, false) ∈ (codeStr p.2, false) :: seen := by
          intro c
          simp only [List.mem_append, List.mem_cons, List.mem_singleton, Prod.mk.injEq,
            hN c, and_true]
          tauto
        rw [foldl_emitA_keys fil so fo used e
          ⟨st.finalA ++ [((codeStr p.2, false),
              renderNorm (codeStr p.2) (countAll fil (codeStr p.2)))],
            st.seenNormalA ++ [codeStr p.2], st.seenContA⟩
          ((codeStr p.2, false) :: seen) hC2 hN2]
        simp [List.map_append, List.append_assoc]

/-- The keys of the annotated pipeline on a filtered frame. -/
theorem pc_emitA_keys (fil : List ObsRow) :
    (pc_emitA fil).map (·.1)
      = firstDedup (fil.enum.map (fun p => (codeStr p.2,
          decide (p.1 ∈ usedIdx (soLookup fil.enum) (foLookup fil.enum))))) := by
  unfold pc_emitA firstDedup
  have h := foldl_emitA_keys fil (soLookup fil.enum) (foLookup fil.enum)
    (usedIdx (soLookup fil.enum) (foLookup fil.enum)) fil.enum ⟨[], [], []⟩ []
    (by simp) (by simp)
  simpa using h

/-- First-occurrence deduplication produces no duplicates and nothing
from the seen-set. -/
theorem firstDedupAux_nodup {α : Type} [DecidableEq α] :
    ∀ (l : List α) (seen : List α),
    (firstDedupAux seen l).Nodup ∧ ∀ a ∈ firstDedupAux seen l, a ∉ seen
  | [], seen => ⟨List.nodup_nil, by simp [firstDedupAux]⟩
  | a :: l, seen => by
    unfold firstDedupAux
    by_cases h : a ∈ seen
    · rw [if_pos h]
      exact firstDedupAux_nodup l seen
    · rw [if_neg h]
      obtain ⟨ih1, ih2⟩ := firstDedupAux_nodup l (a :: seen)
      refine ⟨List.nodup_cons.mpr ⟨fun hmem => ih2 a hmem (List.mem_cons_self a seen), ih1⟩, ?_⟩
      intro x hx
      rcases List.mem_cons.mp hx with h1 | h2
      · rw [h1]; exact h
      · exact fun hxs => ih2 x h2 (List.mem_cons_of_mem a hxs)

/-- C7 confirmed: the output of `process_codes` is the annotated emission
with annotations dropped; the (code, category) keys of that emission are
exactly the first-occurrence deduplication of the per-row (code,
category) scan over the group's rows in original order; and those keys
contain no duplicate — at most one continuous entry and at most one
ordinary entry per distinct code, ordered by first encounter. -/
theorem emission_dedup_order (rows : List ObsRow) (unwanted : List String) :
    process_codes rows unwanted = (annotatedCodes rows unwanted).map (·.2) ∧
    (annotatedCodes rows unwanted).map (·.1) = firstDedup (rowKeys rows unwanted) ∧
    ((annotatedCodes rows unwanted).map (·.1)).Nodup := by
  have h1 : process_codes rows unwanted = (annotatedCodes rows unwanted).map (·.2) :=
    pc_emit_eq_emitA (df_filtered rows unwanted)
  have h2 : (annotatedCodes rows unwanted).map (·.1) = firstDedup (rowKeys rows unwanted) := by
    show (pc_emitA (df_filtered rows unwanted)).map (·.1) = _
    rw [pc_emitA_keys]
    rfl
  refine ⟨h1, h2, ?_⟩
  rw [h2]
  exact (firstDedupAux_nodup _ []).1

/-! ### Claim C8: output row count and join preservation -/

/-- A flatMap over non-empty pieces is at least as long as its index
list. -/
theorem length_le_flatMap {α β : Type} (f : α → List β) :
    ∀ l : List α, (∀ a ∈ l, f a ≠ []) → l.length ≤ (l.flatMap f).length
  | [], _ => by simp
  | a :: l, h => by
    rw [List.flatMap_cons, List.length_append, List.length_cons]
    have h1 : 1 ≤ (f a).length :=
      List.length_pos.mpr (h a (List.mem_cons_self a l))
    have h2 := length_le_flatMap f l (fun x hx => h x (List.mem_cons_of_mem a hx))
    omega

/-- Each condition row contributes at least one joined row, carrying its
own cells. -/
theorem joinInspRow_exists (dfi : List InspRow) (c : CondRow) :
    ∃ m ∈ joinInspRow dfi c, m.inspectionID = c.inspectionID ∧
      m.pacpCode = c.pacpCode ∧ m.continuous = c.continuous := by
  simp only [joinInspRow]
  by_cases h : (dfi.filter (fun i => i.inspectionID == c.inspectionID)).isEmpty
  · rw [if_pos h]
    exact ⟨⟨c.inspectionID, c.pacpCode, c.continuous, none⟩,
      List.mem_singleton.mpr rfl, rfl, rfl, rfl⟩
  · rw [if_neg h]
    have hne : dfi.filter (fun i => i.inspectionID == c.inspectionID) ≠ [] := by
      intro he
      exact h (by rw [he]; rfl)
    obtain ⟨i, hi⟩ := List.exists_mem_of_ne_nil _ hne
    exact ⟨⟨c.inspectionID, c.pacpCode, c.continuous, i.pipeSegmentReference⟩,
      List.mem_map.mpr ⟨i, hi, rfl⟩, rfl, rfl, rfl⟩

/-- Each merged row contributes at least one ratings-joined row, carrying
its own cells. -/
theorem joinRatRow_exists (dfr : List RatRow) (m : Merged1) :
    ∃ x ∈ joinRatRow dfr m, x.inspectionID = m.inspectionID ∧
      x.pacpCode = m.pacpCode ∧ x.continuous = m.continuous ∧
      x.pipeSegmentReference = m.pipeSegmentReference := by
  simp only [joinRatRow]
  by_cases h : (dfr.filter (fun x => x.inspectionID == m.inspectionID)).isEmpty
  · rw [if_pos h]
    exact ⟨⟨m.inspectionID, m.pacpCode, m.continuous, m.pipeSegmentReference, none⟩,
      List.mem_singleton.mpr rfl, rfl, rfl, rfl, rfl⟩
  · rw [if_neg h]
    have hne : dfr.filter (fun x => x.inspectionID == m.inspectionID) ≠ [] := by
      intro he
      exact h (by rw [he]; rfl)
    obtain ⟨x, hx⟩ := List.exists_mem_of_ne_nil _ hne
    exact ⟨⟨m.inspectionID, m.pacpCode, m.continuous, m.pipeSegmentReference,
        x.stQuickRating⟩,
      List.mem_map.mpr ⟨x, hx, rfl⟩, rfl, rfl, rfl, rfl⟩

/-- Pieces of the first join are never empty. -/
theorem joinInspRow_ne_nil (dfi : List InspRow) (c : CondRow) :
    joinInspRow dfi c ≠ [] := by
  obtain ⟨m, hm, -⟩ := joinInspRow_exists dfi c
  exact List.ne_nil_of_mem hm

/-- Pieces of the second join are never empty. -/
theorem joinRatRow_ne_nil (dfr : List RatRow) (m : Merged1) :
    joinRatRow dfr m ≠ [] := by
  obtain ⟨x, hx, -⟩ := joinRatRow_exists dfr m
  exact List.ne_nil_of_mem hx

/-- C8 counterexample: one condition row whose inspection has no metadata
row.  The left joins keep it — with a null segment reference, giving the
key pair `("I1", none)` — but the grouping drops null keys, so the output
is empty while the joined table holds one distinct key pair.  The output
row count is NOT the number of distinct pairs present after the joins,
and this condition row lands in no output group. -/
theorem output_rowcount_cex :
    process_files [⟨"I1", some "A", ""⟩] [] [] [] = [] ∧
    allKeyPairs (merge_ratings (merge_inspections [⟨"I1", some "A", ""⟩] []) [])
      = [("I1", none)] ∧
    (process_files [⟨"I1", some "A", ""⟩] [] [] []).length
      ≠ (allKeyPairs (merge_ratings (merge_inspections [⟨"I1", some "A", ""⟩] []) [])).length :=
  ⟨by decide, by decide, by decide⟩

/-- C8 amended: the output row count equals the number of distinct
(InspectionID, Pipe_Segment_Reference) pairs WITH A NON-NULL segment
reference in the joined table; the left joins themselves do preserve
every condition row (the joined table is at least as long as the
conditions table, and every condition row's cells reach it), but a
condition row whose segment reference is null after the joins is dropped
by the grouping. -/
theorem output_rowcount_nonnull (dfc : List CondRow) (dfi : List InspRow)
    (dfr : List RatRow) (unwanted : List String) :
    (process_files dfc dfi dfr unwanted).length
      = (firstDedup ((merge_ratings (merge_inspections dfc dfi) dfr).filterMap
          (fun r => r.pipeSegmentReference.map (fun s => (r.inspectionID, s))))).length ∧
    dfc.length ≤ (merge_ratings (merge_inspections dfc dfi) dfr).length ∧
    (∀ c ∈ dfc, ∃ m ∈ merge_ratings (merge_inspections dfc dfi) dfr,
      m.inspectionID = c.inspectionID ∧ m.pacpCode = c.pacpCode ∧
      m.continuous = c.continuous) := by
  refine ⟨?_, ?_, ?_⟩
  · simp [process_files, groupKeys]
  · have h1 : dfc.length ≤ (merge_inspections dfc dfi).length :=
      length_le_flatMap (joinInspRow dfi) dfc (fun c _ => joinInspRow_ne_nil dfi c)
    have h2 : (merge_inspections dfc dfi).length
        ≤ (merge_ratings (merge_inspections dfc dfi) dfr).length :=
      length_le_flatMap (joinRatRow dfr) (merge_inspections dfc dfi)
        (fun m _ => joinRatRow_ne_nil dfr m)
    omega
  · intro c hc
    obtain ⟨m, hm, hid, hcode, hcont⟩ := joinInspRow_exists dfi c
    obtain ⟨x, hx, hid2, hcode2, hcont2, -⟩ := joinRatRow_exists dfr m
    refine ⟨x, ?_, ?_, ?_, ?_⟩
    · exact List.mem_flatMap.mpr ⟨m, List.mem_flatMap.mpr ⟨c, hc, hm⟩, hx⟩
    · rw [hid2, hid]
    · rw [hcode2, hcode]
    · rw [hcont2, hcont]

/-- C8 amended, witness: the orphan condition row reaches the joined
table. -/
theorem output_rowcount_nonnull_witness :
    ∃ m ∈ merge_ratings (merge_inspections [⟨"I1", some "A", ""⟩] []) [],
      m.inspectionID = "I1" ∧ m.pacpCode = some "A" ∧ m.continuous = "" :=
  (output_rowcount_nonnull [⟨"I1", some "A", ""⟩] [] [] []).2.2
    ⟨"I1", some "A", ""⟩ (by decide)

/-! ### Claim C9: the exclusion-set editor -/

/-- A string is empty exactly when its character list is. -/
theorem str_empty_iff {s : String} : s.data.isEmpty = true ↔ s = "" := by
  cases s with
  | mk d =>
    simp only [List.isEmpty_iff]
    constructor
    · intro h
      rw [h]
    · intro h
      have hd := congrArg String.data h
      simpa using hd

/-- Membership after the add loop: the old members plus every non-empty
cleaned token. -/
theorem mem_foldl_addStep (c : String) :
    ∀ (toks : List String) (acc : List String),
    c ∈ toks.foldl addStep acc ↔ c ∈ acc ∨ (c ≠ "" ∧ c ∈ toks.map cleanTok)
  | [], acc => by simp
  | t :: toks, acc => by
    rw [List.foldl_cons, mem_foldl_addStep c toks (addStep acc t), List.map_cons]
    have hstep : c ∈ addStep acc t ↔ c ∈ acc ∨ (c ≠ "" ∧ c = cleanTok t) := by
      unfold addStep
      by_cases h1 : (cleanTok t).data.isEmpty
      · rw [if_pos h1]
        have ht : cleanTok t = "" := str_empty_iff.mp h1
        constructor
        · exact Or.inl
        · rintro (h | ⟨hne, hc⟩)
          · exact h
          · rw [ht] at hc
            exact absurd hc hne
      · rw [if_neg h1]
        have ht : cleanTok t ≠ "" := fun he => h1 (str_empty_iff.mpr he)
        by_cases h2 : cleanTok t ∈ acc
        · rw [if_pos h2]
          constructor
          · exact Or.inl
          · rintro (h | ⟨hne, hc⟩)
            · exact h
            · rw [hc]
              exact h2
        · rw [if_neg h2]
          rw [List.mem_append, List.mem_singleton]
          constructor
          · rintro (h | h)
            · exact Or.inl h
            · exact Or.inr ⟨by rw [h]; exact ht, h⟩
          · rintro (h | ⟨hne, hc⟩)
            · exact Or.inl h
            · exact Or.inr hc
    rw [hstep]
    simp only [List.mem_cons]
    tauto

/-- Membership after the remove loop: the old members minus every cleaned
token. -/
theorem mem_foldl_removeStep (c : String) :
    ∀ (toks : List String) (acc : List String),
    c ∈ toks.foldl removeStep acc ↔ c ∈ acc ∧ c ∉ toks.map cleanTok
  | [], acc => by simp
  | t :: toks, acc => by
    rw [List.foldl_cons, mem_foldl_removeStep c toks (removeStep acc t), List.map_cons]
    have hstep : c ∈ removeStep acc t ↔ c ∈ acc ∧ c ≠ cleanTok t := by
      unfold removeStep
      by_cases h2 : cleanTok t ∈ acc
      · rw [if_pos h2, List.mem_filter]
        simp
      · rw [if_neg h2]
        constructor
        · intro h
          exact ⟨h, fun hc => h2 (hc ▸ h)⟩
        · exact And.left
    rw [hstep]
    simp only [List.mem_cons]
    tauto

/-- C9 counterexample: with the add field `"SAG XYZ"`, splitting on
commas or whitespace (as the claim states) would add both `"SAG"` and
`"XYZ"`; the code splits only on commas and newlines, so it adds the
single token `"SAG XYZ"` and `"XYZ"` is not in the resulting set. -/
theorem token_split_cex :
    "XYZ" ∈ build_unwanted_spec "SAG XYZ" "" ∧
    "XYZ" ∉ build_unwanted "SAG XYZ" "" ∧
    "SAG XYZ" ∈ build_unwanted "SAG XYZ" "" :=
  ⟨by decide, by decide, by decide⟩

/-- C9 amended: the delimiters are commas and NEWLINES (other whitespace
is preserved inside a token); each token is trimmed and upper-cased; the
add deltas are applied to the default set first and the remove deltas
afterwards, so membership in the final set means: a default or added
token that no remove token names. -/
theorem unwanted_membership (addText removeText c : String) :
    c ∈ build_unwanted addText removeText
      ↔ ((c ∈ DEFAULT_UNWANTED ∨
            (pyTruthyStrip addText = true ∧ c ≠ "" ∧
              c ∈ (splitTokensCN addText).map cleanTok)) ∧
          ¬ (pyTruthyStrip removeText = true ∧
              c ∈ (splitTokensCN removeText).map cleanTok)) := by
  simp only [build_unwanted]
  by_cases ha : pyTruthyStrip addText = true
  · rw [if_pos ha]
    by_cases hr : pyTruthyStrip removeText = true
    · rw [if_pos hr, mem_foldl_removeStep, mem_foldl_addStep]
      tauto
    · rw [if_neg hr, mem_foldl_addStep]
      tauto
  · rw [if_neg ha]
    by_cases hr : pyTruthyStrip removeText = true
    · rw [if_pos hr, mem_foldl_removeStep]
      tauto
    · rw [if_neg hr]
      tauto

/-- C9 amended, witness: a default code survives empty deltas. -/
theorem unwanted_membership_witness :
    "TF" ∈ build_unwanted "" ""
      ↔ (("TF" ∈ DEFAULT_UNWANTED ∨
            (pyTruthyStrip "" = true ∧ "TF" ≠ "" ∧
              "TF" ∈ (splitTokensCN "").map cleanTok)) ∧
          ¬ (pyTruthyStrip "" = true ∧
              "TF" ∈ (splitTokensCN "").map cleanTok)) :=
  unwanted_membership "" "" "TF"
